import Mathlib

set_option maxHeartbeats 1000000

/-!
Shallow embedding of `emcc-dependency-info.py`, a tool that scans a list of
source files, extracts license notices (from source comments or accompanying
LICENSE files), groups them and emits a JSON dependency manifest.

Python strings are modelled as Lean `String`/`List Char`; `pathlib.Path`
values as lists of components (`PPath`); fallible or possibly diverging code
returns `Option` (with `none` marking divergence or an uncaught exception, as
documented at each definition).  The regular expressions of the script are
small enough to be modelled directly as deterministic matching functions that
follow Python's backtracking order; `\s`, `str.strip` and `re.IGNORECASE` are
modelled over the ASCII range (plus the two literal non-ASCII characters
appearing in the script), which covers every character class the script's
inputs exercise.
-/

namespace EmccDepInfo

/-- Python whitespace (`\s` and `str.strip`), restricted to the ASCII range. -/
def isPySpace (c : Char) : Bool :=
  c == ' ' || c == '\t' || c == '\n' || c == '\r' || c == '\x0b' || c == '\x0c'

/-- `str.strip()` on a character list. -/
def pyStripL (cs : List Char) : List Char :=
  ((cs.dropWhile isPySpace).reverse.dropWhile isPySpace).reverse

/-- `str.strip()`. -/
def pyStrip (s : String) : String := String.mk (pyStripL s.data)

/-- Case-insensitive character comparison (`re.IGNORECASE`, ASCII case map). -/
def charCI (a b : Char) : Bool := a.toLower == b.toLower

/-- `pat` is a case-insensitive prefix of the second list. -/
def isCIPrefixL : List Char → List Char → Bool
  | [], _ => true
  | _ :: _, [] => false
  | p :: ps, c :: cs => charCI p c && isCIPrefixL ps cs

/-- Model of `pathlib.Path`: the `parts` tuple, with `"/"` as the first
component of an absolute path (exactly as in Python, where
`Path("/a/b").parts == ("/", "a", "b")` and `Path(".").parts == ()`). -/
structure PPath where
  parts : List String
deriving DecidableEq, Repr

/-- `Path.name`: the last component (`""` for the root and for `Path(".")`). -/
def PPath.name (p : PPath) : String :=
  match p.parts.getLast? with
  | none => ""
  | some s => if s = "/" then "" else s

/-- `Path.parent`.  Note that in Python the parent of the root is the root
itself and the parent of `Path(".")` is `Path(".")`: the chain of parents
never ends. -/
def PPath.parent (p : PPath) : PPath :=
  if p.parts = [] then ⟨[]⟩
  else if p.parts = ["/"] then ⟨["/"]⟩
  else ⟨p.parts.dropLast⟩

/-- `directory / name`. -/
def PPath.child (p : PPath) (n : String) : PPath := ⟨p.parts ++ [n]⟩

/-- `SPDX_IDENTIFIER_LLVM_EXCEPTION` (line 35). -/
def SPDX_IDENTIFIER_LLVM_EXCEPTION : String := "Apache-2.0 WITH LLVM-exception"

/-- `LICENSE_TEXT_LLVM_EXCEPTION` (line 34). -/
def LICENSE_TEXT_LLVM_EXCEPTION : String := "Apache License v2.0 with LLVM Exceptions"

/-- `EMSCRIPTEN_NOTICE` (line 38). -/
def EMSCRIPTEN_NOTICE : String := "Emscripten is available under two separate licenses"

/-- The alternatives of `re_comment` (line 91), in the order they appear in
the alternation (Python tries them left to right). -/
def re_comment : List String := ["//", "/*", " *", ""]

/-- The alternatives of `re_copyright` (line 92).  The second literal is the
TWO-character sequence `Â©` (bytes `c3 82 c2 a9` in the source file): the
script's author intended the copyright sign `©` but the file holds its
UTF-8 bytes doubly encoded. -/
def re_copyright : List String := ["Copyright", "Â©", "(c)"]

/-- The record the script calls `LicenseInfo` (lines 53-67). -/
structure LicenseInfo where
  source_path : PPath
  license : Option String := none
  copyright : Option String := none
  notice : Option String := none
  license_path : Option PPath := none
deriving DecidableEq, Repr

/-- The record the script calls `Dependency` (lines 41-50). -/
structure Dependency where
  name : String
  license : Option String
  notice : String
deriving DecidableEq, Repr

/-! ### The regular expressions of `extract_license_from_source` -/

def spdx_marker : List Char := "SPDX-License-Identifier:".data

/-- The tail just after the leftmost case-insensitive occurrence of `marker`
(the heart of `re.search`). -/
def searchCIAfter (marker : List Char) : List Char → Option (List Char)
  | [] => none
  | c :: cs =>
    if isCIPrefixL marker (c :: cs) then some ((c :: cs).drop marker.length)
    else searchCIAfter marker cs

/-- `re.search(r"SPDX-License-Identifier:(?P<license>.*)", line, re.IGNORECASE)`
followed by `match["license"].strip()` (lines 111-113): the captured group is
everything after the marker up to the end of the line (`.` does not match a
newline), stripped. -/
def spdxSearch (line : String) : Option String :=
  match searchCIAfter spdx_marker line.data with
  | none => none
  | some rest => some (String.mk (pyStripL (rest.takeWhile (fun c => c ≠ '\n'))))

/-- The regex tail `.*$` (no MULTILINE): consumes up to the end of the line
and succeeds only when what remains is empty or a single final newline;
returns the consumed content. -/
def dotStarDollar (cs : List Char) : Option (List Char) :=
  let content := cs.takeWhile (fun c => c ≠ '\n')
  let rest := cs.drop content.length
  if rest = [] ∨ rest = ['\n'] then some content else none

/-- After a fixed leader, try the comment alternatives in Python's
alternation order, then `\s*`, then the copyright alternatives, then `.*$`
(the pattern of line 119).  Returns `(leader, comment, copyright)` as the
named groups would. -/
def tryCommentCopyright (leader after : List Char) :
    Option (List Char × String × List Char) :=
  re_comment.findSome? fun cmt =>
    if cmt.data.isPrefixOf after then
      let body := (after.drop cmt.data.length).dropWhile isPySpace
      if re_copyright.any (fun ca => isCIPrefixL ca.data body) then
        match dotStarDollar body with
        | some content => some (leader, cmt, content)
        | none => none
      else none
    else none

/-- Backtracking over the greedy `(?P<leader>\s*)`: Python tries the longest
whitespace leader first and shortens it until the rest of the pattern
matches. -/
def matchCopyrightFrom (lineCs : List Char) :
    Nat → Option (List Char × String × List Char)
  | 0 => tryCommentCopyright [] lineCs
  | l + 1 =>
    match tryCommentCopyright (lineCs.take (l + 1)) (lineCs.drop (l + 1)) with
    | some r => some r
    | none => matchCopyrightFrom lineCs l

/-- `re.match` of the copyright pattern of lines 118-122. -/
def matchCopyright (line : String) : Option (List Char × String × List Char) :=
  matchCopyrightFrom line.data (line.data.takeWhile isPySpace).length

/-- `re_separator` (line 94): `^\s*(?:={10,}|-{10,})\s*$`. -/
def re_separator_match (cs : List Char) : Bool :=
  let t := pyStripL cs
  decide (t.length ≥ 10) && (t.all (fun c => c == '=') || t.all (fun c => c == '-'))

/-- The notice-accumulation loop of lines 133-144.  A file is a list of
lines each ending in `"\n"`; at end of file Python's `readline` returns `""`
forever, so the loop exits there only when the prefix is nonempty
(`"".startswith("")` is true): `none` models that divergence. -/
def collectNotice (pre leader : List Char) (comment : String) :
    List Char → List String → Option (List Char)
  | acc, [] => if pre = [] then none else some acc
  | acc, line :: rest =>
    let l := line.data
    if pre.isPrefixOf l then
      if comment = "*" ∧ (leader ++ ['*', '/']).isPrefixOf l then some acc
      else
        let content := l.drop pre.length
        if pyStripL acc ≠ [] ∧ re_separator_match content then some acc
        else collectNotice pre leader comment (acc ++ content) rest
    else some acc

/-- `extract_license_from_source` (lines 97-154) on the list of lines of the
file (each line carries its trailing newline, as `readline` returns it).
`some (some info)` = the function returns `info`; `some none` = it returns
`None`; `none` = its notice loop diverges.  Note that the local variable
`license` is reset to `None` at the top of every iteration of the reading
loop (line 110), so an SPDX identifier found on an earlier line is forgotten
by the time a copyright line is found. -/
def extract_license_from_source (source_path : PPath) :
    List String → Option (Option LicenseInfo)
  | [] => some none
  | line :: rest =>
    let license : Option String := spdxSearch line
    if license = some SPDX_IDENTIFIER_LLVM_EXCEPTION then
      some (some { source_path := source_path, license := license })
    else
      match matchCopyright line with
      | some (leader, comment, copyrightCs) =>
        let comment1 := if comment = "/*" then " *" else comment
        let pre := leader ++ comment1.data
        match collectNotice pre leader comment1 [] rest with
        | none => none
        | some acc =>
          let noticeS := pyStripL acc
          some (some { source_path := source_path, license := license,
                       copyright := some (String.mk copyrightCs),
                       notice := if noticeS = [] then none
                                 else some (String.mk noticeS) })
      | none => extract_license_from_source source_path rest

/-! ### License-file discovery -/

/-- The words of `re_licence_filename` (line 93), in alternation order. -/
def licence_filename_words : List String :=
  ["copying", "copyright", "notice", "license", "licence"]

/-- One alternative of the suffix group `(?:.txt|.md|)`: an unescaped `.`
(any character but a newline) followed by a literal, case-insensitively. -/
def dotLiteralAt (lit : List Char) (cs : List Char) : Bool :=
  match cs with
  | [] => false
  | c :: rest => decide (c ≠ '\n') && isCIPrefixL lit rest

/-- `re_licence_filename.match(name)` (line 93):
`(?:copying|copyright|notice|license|licence)(?:.txt|.md|)` with
`re.IGNORECASE`.  `re.match` anchors only the start of the string, and the
third alternative of the suffix group is empty (it always matches), so the
trailing part of the name is never constrained. -/
def re_licence_filename_match (name : String) : Bool :=
  licence_filename_words.any fun w =>
    isCIPrefixL w.data name.data &&
      (let rest := name.data.drop w.data.length
       dotLiteralAt ['t', 'x', 't'] rest || dotLiteralAt ['m', 'd'] rest || true)

/-- Modelled from the spec (for comparison with the code's regex): a name is
a candidate when, case-insensitively, it is exactly one of the five words
optionally followed by a literal `.txt` or `.md` suffix. -/
def spec_licence_filename (name : String) : Bool :=
  licence_filename_words.any fun w =>
    ["", ".txt", ".md"].any fun suf =>
      name.data.map Char.toLower = (w ++ suf).data.map Char.toLower

/-- `find_license_file` (lines 157-177), fuel-indexed.  The loop is
`while directory:`, and a Python `Path` is always truthy (moreover the parent
of the root is the root itself), so the loop can only exit by finding a
candidate; the `return None` of line 177 is unreachable.  `none` means the
fuel ran out with the loop still running.  `listing` gives the names yielded
by `directory.iterdir()`, in listing order. -/
def find_license_file_fuel (listing : PPath → List String) :
    Nat → PPath → Option PPath
  | 0, _ => none
  | fuel + 1, directory =>
    let license_names := (listing directory).filter re_licence_filename_match
    match license_names.head? with
    | some n => some (directory.child n)
    | none => find_license_file_fuel listing fuel directory.parent

/-- `re.sub(r"^MARKER.*\Z", "", text, flags=re.MULTILINE | re.DOTALL)`:
remove everything from the first line-start occurrence of the marker to the
end of the text.  The `atStart` flag says whether the current position is the
start of a line. -/
def truncFromLineStart (marker : List Char) : List Char → Bool → List Char
  | [], _ => []
  | c :: cs, atStart =>
    if atStart ∧ marker.isPrefixOf (c :: cs) then []
    else c :: truncFromLineStart marker cs (c = '\n')

/-- `read_license_file` (lines 180-195).  `readFS` gives `read_text()` of a
path. -/
def read_license_file (readFS : PPath → String) (license_path : PPath) :
    String :=
  let license_text := readFS license_path
  let package_name := license_path.parent.name
  if package_name = "emscripten" then
    String.mk
      (truncFromLineStart "This program uses portions of Node".data
        license_text.data true)
  else if package_name = "musl" then
    String.mk
      (truncFromLineStart "Authors/contributors include".data
        license_text.data true)
  else license_text

/-! ### License inference -/

/-- `needle` occurs as a contiguous substring of the list. -/
def isSubL (needle : List Char) : List Char → Bool
  | [] => needle.isEmpty
  | c :: cs => needle.isPrefixOf (c :: cs) || isSubL needle cs

/-- Collapse each whitespace run to a single space (`re.sub(r"\s+", " ", ·)`
applied after `strip`, line 203).  The flag records whether the previous
character was whitespace: the first character of a run becomes a single
space, the rest of the run is dropped. -/
def squeezeWsGo : Bool → List Char → List Char
  | _, [] => []
  | prevWs, c :: cs =>
    if isPySpace c then
      if prevWs then squeezeWsGo true cs else ' ' :: squeezeWsGo true cs
    else c :: squeezeWsGo false cs

def squeezeWs (cs : List Char) : List Char := squeezeWsGo false cs

/-- The whitespace normalization of line 203: strip, then collapse runs. -/
def collapseWsL (cs : List Char) : List Char := squeezeWs (pyStripL cs)

/-- `infer_license_identifier` (lines 198-212). -/
def infer_license_identifier (notice : String) : Option String :=
  let n := collapseWsL notice.data
  if isSubL LICENSE_TEXT_LLVM_EXCEPTION.data n then
    some SPDX_IDENTIFIER_LLVM_EXCEPTION
  else if isSubL ("the MIT license and the University of Illinois/NCSA Open Source License").data n then
    some "(MIT OR NCSA)"
  else if isSubL ("MIT license").data n then
    some "MIT"
  else if isSubL ("Permission to use, copy, modify, and distribute this software is freely granted, provided that this notice is preserved.").data n then
    some "SunPro"
  else none

/-- Modelled from the spec: the inference table as an ordered list of
(pattern, identifier) pairs, evaluated in sequence. -/
def inferencePatterns : List (String × String) :=
  [(LICENSE_TEXT_LLVM_EXCEPTION, SPDX_IDENTIFIER_LLVM_EXCEPTION),
   ("the MIT license and the University of Illinois/NCSA Open Source License",
    "(MIT OR NCSA)"),
   ("MIT license", "MIT"),
   ("Permission to use, copy, modify, and distribute this software is freely granted, provided that this notice is preserved.",
    "SunPro")]

/-- Modelled from the spec: first pattern of the table occurring in the
(already collapsed) text wins. -/
def lookupFirstPattern (collapsed : List Char) :
    List (String × String) → Option String
  | [] => none
  | (pat, ident) :: rest =>
    if isSubL pat.data collapsed then some ident
    else lookupFirstPattern collapsed rest

/-! ### Sorting (Python `sorted` over strings) -/

/-- Python's `<` on strings: lexicographic comparison by code point. -/
def listCharLt : List Char → List Char → Bool
  | [], [] => false
  | [], _ :: _ => true
  | _ :: _, [] => false
  | a :: as, b :: bs => if a = b then listCharLt as bs else decide (a < b)

def pyStrLt (a b : String) : Bool := listCharLt a.data b.data

/-- Insert into a sorted list (before the first element that is not
smaller). -/
def insertSorted (x : String) : List String → List String
  | [] => [x]
  | y :: ys => if pyStrLt y x then y :: insertSorted x ys else x :: y :: ys

/-- `sorted(l)` for strings: the sorted arrangement of the multiset `l`. -/
def pySorted (l : List String) : List String := l.foldr insertSorted []

/-- Insert into a strictly sorted list, dropping duplicates. -/
def insertSortedD (x : String) : List String → List String
  | [] => [x]
  | y :: ys =>
    if pyStrLt x y then x :: y :: ys
    else if x = y then y :: ys
    else y :: insertSortedD x ys

/-- `sorted(set(l))` for strings: the strictly increasing enumeration of the
distinct elements of `l`. -/
def pySortedSet (l : List String) : List String := l.foldr insertSortedD []

/-! ### Grouping -/

/-- The type of the keys of the `groups` dict (line 221): `str | Path`.
A `Path` key never equals a `str` key. -/
inductive GKey where
  | path (p : PPath)
  | text (s : String)
deriving DecidableEq, Repr

/-- `license_info.license_path or license_info.notice or
license_info.source_path` (line 224), with Python truthiness: a `Path` is
always truthy, a string is truthy when nonempty. -/
def groupKey (i : LicenseInfo) : GKey :=
  match i.license_path with
  | some p => GKey.path p
  | none =>
    match i.notice with
    | some n => if n = "" then GKey.path i.source_path else GKey.text n
    | none => GKey.path i.source_path

/-- Append one item to a `defaultdict(list)` modelled as an association list
in insertion order: an existing key keeps its position, a new key goes to the
end. -/
def insertGroup (gs : List (GKey × List LicenseInfo)) (k : GKey)
    (i : LicenseInfo) : List (GKey × List LicenseInfo) :=
  match gs with
  | [] => [(k, [i])]
  | (k', is) :: rest =>
    if k' = k then (k', is ++ [i]) :: rest else (k', is) :: insertGroup rest k i

/-- The grouping loop of lines 221-225 (skipping `None` entries). -/
def buildGroups (license_infos : List (Option LicenseInfo)) :
    List (GKey × List LicenseInfo) :=
  license_infos.foldl
    (fun gs oi =>
      match oi with
      | none => gs
      | some i => insertGroup gs (groupKey i) i) []

/-- Lines 230-233: the representative item's notice, or the (trimmed)
license-file text, or the empty string. -/
def resolved_notice (readFS : PPath → String) (item : LicenseInfo) : String :=
  let notice :=
    match item.notice, item.license_path with
    | none, some lp => some (read_license_file readFS lp)
    | n, _ => n
  notice.getD ""

/-- Line 234: `item.license or infer_license_identifier(notice)`, with
Python truthiness (an empty explicit license falls through to inference). -/
def resolved_license_id (readFS : PPath → String) (item : LicenseInfo) :
    Option String :=
  match item.license with
  | some l =>
    if l = "" then infer_license_identifier (resolved_notice readFS item)
    else some l
  | none => infer_license_identifier (resolved_notice readFS item)

/-- `os.path.commonpath` on parts lists: the longest common prefix. -/
def commonPrefix2 : List String → List String → List String
  | a :: as, b :: bs => if a = b then a :: commonPrefix2 as bs else []
  | _, _ => []

def commonParts : List (List String) → List String
  | [] => []
  | p :: ps => ps.foldl commonPrefix2 p

/-- A path is absolute when its first component is `"/"` (as in
`Path.parts`).  `os.path.commonpath` raises `ValueError` when absolute and
relative paths are mixed. -/
def isAbsolutePath (p : PPath) : Bool := decide (p.parts.head? = some "/")

/-- The name computation of lines 236-248.  `none` models an uncaught
exception: the `AttributeError` Python raises at line 241 when the group's
key is a path but the representative has no `license_path` (which happens
when the same source path occurs twice with only an in-source copyright,
since `None.parent` raises), and the `ValueError` `os.path.commonpath`
raises at line 244 when the member source paths mix absolute and relative
paths. -/
def group_name (key : GKey) (items : List LicenseInfo) (item : LicenseInfo) :
    Option String :=
  if items.length = 1 then some item.source_path.name
  else
    match key with
    | GKey.path _ =>
      match item.license_path with
      | some lp => some lp.parent.name
      | none => none
    | GKey.text _ =>
      if (items.any fun i => isAbsolutePath i.source_path)
          ∧ (items.any fun i => !isAbsolutePath i.source_path) then
        none
      else
        let common_parent :=
          commonParts (items.map (fun i => i.source_path.parts))
        if common_parent ≠ [] then some (PPath.mk common_parent).name
        else some (String.intercalate ", "
          (pySorted (items.map (fun i => i.source_path.name))))

/-- The member copyrights kept by line 254's `if item.copyright`: Python
truthiness drops both `None` and the empty string. -/
def member_copyrights (items : List LicenseInfo) : List String :=
  items.filterMap (fun i =>
    i.copyright.bind (fun c => if c = "" then none else some c))

/-- Lines 254-257: prepend the sorted set of the distinct truthy member
copyrights, joined by `"\r"` (the script's deliberate choice:
`linebreak = "\r"  # webapp converts to <br>`), double newline before the
notice body. -/
def final_notice (readFS : PPath → String) (item : LicenseInfo)
    (items : List LicenseInfo) : String :=
  let notice := resolved_notice readFS item
  let copyrights := pySortedSet (member_copyrights items)
  if copyrights = [] then notice
  else String.intercalate "\r" copyrights ++ "\n\n" ++ notice

/-- The body of the per-group loop of lines 228-263.  `none` = uncaught
`AttributeError`; `some none` = the group is dropped by the LLVM-exception
check of lines 250-252; `some (some d)` = the group emits `d`. -/
def emitGroup (readFS : PPath → String) (key : GKey)
    (items : List LicenseInfo) : Option (Option Dependency) :=
  match items with
  | [] => none
  | item :: _ =>
    match group_name key items item with
    | none => none
    | some name =>
      if resolved_license_id readFS item = some SPDX_IDENTIFIER_LLVM_EXCEPTION
      then some none
      else some (some { name := name,
                        license := resolved_license_id readFS item,
                        notice := final_notice readFS item items })

/-- The emission loop over the groups in dict order.  An exception in any
group aborts the whole run (`none`). -/
def emitAll (readFS : PPath → String) :
    List (GKey × List LicenseInfo) → Option (List Dependency)
  | [] => some []
  | (k, items) :: rest =>
    match emitGroup readFS k items with
    | none => none
    | some none => emitAll readFS rest
    | some (some d) => (emitAll readFS rest).map (d :: ·)

/-- `group_dependencies` (lines 215-264).  `none` models an uncaught
exception. -/
def group_dependencies (readFS : PPath → String)
    (license_infos : List (Option LicenseInfo)) : Option (List Dependency) :=
  emitAll readFS (buildGroups license_infos)

/-! ### The main pipeline -/

/-- The filesystem a run sees.  `lines` is the `readline` decomposition of a
source file (each line carries its trailing newline); `contents` is
`read_text()`; `listing` is the order `iterdir()` yields names in. -/
structure FileSystem where
  isFile : PPath → Bool
  lines : PPath → List String
  contents : PPath → String
  listing : PPath → List String

/-- `find_license_info` (lines 70-84).  `some none` = returns `None` (the
path is not a file); `none` = divergence (in the extractor's notice loop or
in the license-file walk, whose fuel ran out). -/
def find_license_info (fs : FileSystem) (fuel : Nat) (source_path : PPath) :
    Option (Option LicenseInfo) :=
  if fs.isFile source_path = false then some none
  else
    match extract_license_from_source source_path (fs.lines source_path) with
    | none => none
    | some (some info) => some (some info)
    | some none =>
      match find_license_file_fuel fs.listing fuel source_path.parent with
      | none => none
      | some p =>
        some (some { source_path := source_path, license_path := some p })

/-- The Emscripten-notice substitution of lines 309-315.  A `None` record or
a `None` notice raises `AttributeError`, which is caught and ignored. -/
def emscripten_substitute (emscripten_license_path : PPath)
    (oi : Option LicenseInfo) : Option LicenseInfo :=
  match oi with
  | none => none
  | some i =>
    match i.notice with
    | none => some i
    | some n =>
      if (pyStrip n).data.take EMSCRIPTEN_NOTICE.data.length
          = EMSCRIPTEN_NOTICE.data then
        some { i with license_path := some emscripten_license_path,
                      notice := none }
      else some i

/-- JSON string escaping as `json.dump` performs it (`ensure_ascii`;
characters outside the basic multilingual plane do not occur in this
development). -/
def hexDigit (n : Nat) : Char :=
  if n < 10 then Char.ofNat ('0'.toNat + n) else Char.ofNat ('a'.toNat + (n - 10))

def u16hex (n : Nat) : List Char :=
  [hexDigit (n / 4096 % 16), hexDigit (n / 256 % 16),
   hexDigit (n / 16 % 16), hexDigit (n % 16)]

def jsonEscapeChar (c : Char) : List Char :=
  if c = '"' then ['\\', '"']
  else if c = '\\' then ['\\', '\\']
  else if c = '\n' then ['\\', 'n']
  else if c = '\r' then ['\\', 'r']
  else if c = '\t' then ['\\', 't']
  else if c = '\x08' then ['\\', 'b']
  else if c = '\x0c' then ['\\', 'f']
  else if c.toNat < 32 ∨ c.toNat > 126 then '\\' :: 'u' :: u16hex c.toNat
  else [c]

def jsonString (s : String) : String :=
  "\"" ++ String.mk (s.data.foldr (fun c acc => jsonEscapeChar c ++ acc) []) ++ "\""

/-- One entry of the output array, with `json.dump(..., indent=2)` layout. -/
def renderDependency (d : Dependency) : String :=
  "    \x7b\n      \"name\": " ++ jsonString d.name
    ++ ",\n      \"license\": "
    ++ (match d.license with | none => "null" | some l => jsonString l)
    ++ ",\n      \"notice\": " ++ jsonString d.notice ++ "\n    \x7d"

/-- `json.dump({"dependencies": dependencies}, output, indent=2)` followed by
a final newline (lines 319-320). -/
def renderJson (deps : List Dependency) : String :=
  "\x7b\n  \"dependencies\": ["
    ++ (if deps = [] then "]"
        else "\n" ++ String.intercalate ",\n" (deps.map renderDependency)
          ++ "\n  ]")
    ++ "\n\x7d\n"

/-- `main` (lines 285-324), given the already parsed source list and the
emscripten directory (argument parsing and the `emcc` lookup are I/O glue
outside the model).  `some none` = `exit(1)` because the toolchain LICENSE
file is missing; `none` = divergence or an uncaught exception; `some (some
out)` = the run writes `out`. -/
def main (fs : FileSystem) (emscripten_dir : PPath) (fuel : Nat)
    (source_paths : List PPath) : Option (Option String) :=
  let emscripten_license_path := emscripten_dir.child "LICENSE"
  if fs.isFile emscripten_license_path = false then some none
  else
    match source_paths.mapM (find_license_info fs fuel) with
    | none => none
    | some license_infos =>
      let license_infos2 :=
        license_infos.map (emscripten_substitute emscripten_license_path)
      match group_dependencies fs.contents license_infos2 with
      | none => none
      | some dependencies => some (some (renderJson dependencies))

/-! ### Derived definitions used to state the claims -/

/-- All members of `infos` that fall into the group keyed `k`. -/
def itemsWithKey (infos : List LicenseInfo) (k : GKey) : List LicenseInfo :=
  infos.filter (fun i => decide (groupKey i = k))

/-- The keys of a list in order of first occurrence (`seen` accumulates the
keys already encountered). -/
def firstOcc (seen : List GKey) : List GKey → List GKey
  | [] => []
  | k :: ks =>
    if k ∈ seen then firstOcc seen ks else k :: firstOcc (k :: seen) ks

/-! ### Concrete fixtures for counterexamples and witnesses -/

def readFS0 : PPath → String := fun _ => ""

def pA : PPath := ⟨["/", "src", "a.c"]⟩

def pB : PPath := ⟨["/", "src", "b.c"]⟩

def pC : PPath := ⟨["/", "lib", "z.c"]⟩

def linesA : List String :=
  ["// Copyright AAA SPDX-License-Identifier: MIT\n",
   "// Apache License v2.0 with LLVM Exceptions\n",
   "x\n"]

def linesB : List String :=
  ["// Copyright BBB\n",
   "// Apache License v2.0 with LLVM Exceptions\n",
   "x\n"]

def infoA : LicenseInfo :=
  ⟨pA, some "MIT", some "Copyright AAA SPDX-License-Identifier: MIT",
   some "Apache License v2.0 with LLVM Exceptions", none⟩

def infoB : LicenseInfo :=
  ⟨pB, none, some "Copyright BBB",
   some "Apache License v2.0 with LLVM Exceptions", none⟩

def infoC : LicenseInfo :=
  ⟨pC, none, some "Copyright ZZZ", some "zzz body", none⟩

def depAB : Dependency :=
  ⟨"src", some "MIT",
   "Copyright AAA SPDX-License-Identifier: MIT\rCopyright BBB\n\nApache License v2.0 with LLVM Exceptions"⟩

def depC : Dependency :=
  ⟨"z.c", none, "Copyright ZZZ\n\nzzz body"⟩

def rootP : PPath := ⟨["/"]⟩

/-- A small filesystem whose root listing order is a parameter: one source
file `/a.c` with no in-source notice, one license file `/LICENSE`, and the
toolchain license `/emsdk/LICENSE`. -/
def fsW (names : List String) : FileSystem :=
  { isFile := fun p =>
      decide (p = ⟨["/", "LICENSE"]⟩ ∨ p = ⟨["/", "a.c"]⟩
        ∨ p = ⟨["/", "emsdk", "LICENSE"]⟩),
    lines := fun _ => [],
    contents := fun _ => "generic license text",
    listing := fun d => if d = rootP then names else [] }

def fsW1 : FileSystem := fsW ["a.c", "LICENSE"]

def fsW2 : FileSystem := fsW ["LICENSE", "a.c"]

/-! ## Claims -/

/-- C2.  For a block comment `/* Copyright ...` continued by ` *`-prefixed
lines, the claim says extraction stops at the line holding the closer `*/`
and that this line's content is not captured.  The code disagrees: the
closer check of line 138 compares `comment == "*"`, but after the
normalization of lines 127-129 the comment is always `" *"` (with a leading
space), so that check can never fire, and the closer line `" */"` does start
with the prefix `" *"`; its remaining content `"/"` is appended to the
notice.  This evaluation shows the extracted notice ends in the stray
`"\n/"` contributed by the closer line. -/
theorem c2_eval :
    extract_license_from_source ⟨["/", "pkg", "a.c"]⟩
      ["/* Copyright 2020 Foo\n", " * Some notice text here\n", " */\n",
       "int x;\n"]
    = some (some { source_path := ⟨["/", "pkg", "a.c"]⟩,
                   license := none,
                   copyright := some "Copyright 2020 Foo",
                   notice := some "Some notice text here\n/",
                   license_path := none }) := by rfl

/-- C6.  The claim says an SPDX identifier found on an earlier line is
returned together with a copyright found on a later line.  The code resets
the local `license` to `None` at the top of every loop iteration (line 110),
so the identifier of the first line is forgotten: the returned record has
`license = none`.  The second conjunct shows the only way line 110 leaves a
non-LLVM identifier visible: marker and copyright on the same line. -/
theorem c6_eval :
    extract_license_from_source ⟨["/", "pkg", "b.c"]⟩
      ["// SPDX-License-Identifier: MIT\n", "// Copyright 2020 Foo\n"]
    = some (some { source_path := ⟨["/", "pkg", "b.c"]⟩,
                   license := none,
                   copyright := some "Copyright 2020 Foo",
                   notice := none,
                   license_path := none }) ∧
    extract_license_from_source ⟨["/", "pkg", "b.c"]⟩
      ["// Copyright 2020 Foo SPDX-License-Identifier: MIT\n"]
    = some (some { source_path := ⟨["/", "pkg", "b.c"]⟩,
                   license := some "MIT",
                   copyright := some "Copyright 2020 Foo SPDX-License-Identifier: MIT",
                   notice := none,
                   license_path := none }) := ⟨by rfl, by rfl⟩

/-- C8.  The claim says a line whose comment-prefixed text begins with the
copyright sign `©` is recognized as a copyright marker.  The source file's
`re_copyright` literal holds the doubly encoded bytes `c3 82 c2 a9` (the
two-character text `Â©`), so a genuine `©` line is NOT recognized (first
conjunct: the whole file yields `None`), while the mojibake sequence `Â©`
is (second conjunct). -/
theorem c8_eval :
    extract_license_from_source ⟨["/", "pkg", "c.c"]⟩
      ["// © 2020 Example Corp\n", "// Some notice\n"] = some none ∧
    extract_license_from_source ⟨["/", "pkg", "c.c"]⟩
      ["// Â© 2020 Example Corp\n"]
    = some (some { source_path := ⟨["/", "pkg", "c.c"]⟩,
                   license := none,
                   copyright := some "Â© 2020 Example Corp",
                   notice := none,
                   license_path := none }) := ⟨by rfl, by rfl⟩

/-- C4.  The claim says that with no license-file candidate anywhere up the
ancestor chain the walk terminates and returns `None`.  The code's loop is
`while directory:`, and a Python `Path` is always truthy — moreover
`Path("/").parent == Path("/")` — so with no candidates the walk never
terminates: for EVERY fuel bound, the fuel-indexed model of the loop is
still running (`none`), from any starting directory.  The `return None` of
line 177 is unreachable. -/
theorem c4_eval : ∀ (fuel : Nat) (directory : PPath),
    find_license_file_fuel (fun _ => ["main.c", "util.h"]) fuel directory
      = none := by
  intro fuel
  induction fuel with
  | zero => intro _; rfl
  | succ n ih =>
    intro d
    have step :
        find_license_file_fuel (fun _ => ["main.c", "util.h"]) (n + 1) d
          = find_license_file_fuel (fun _ => ["main.c", "util.h"]) n d.parent :=
      rfl
    rw [step]
    exact ih d.parent

/-- C5, counterexample.  The claim says names merely beginning with one of
the license words, such as `license_template.h`, are not candidates, i.e.
that the code's test agrees with the exact word-plus-optional-suffix reading
(`spec_licence_filename`, modelled from the spec's words).  It does not:
`re.match` anchors only the start of the string. -/
theorem c5_cex :
    re_licence_filename_match "license_template.h" = true ∧
    spec_licence_filename "license_template.h" = false := ⟨by rfl, by rfl⟩

/-- C5, amended.  A directory entry is treated as a license-file candidate
iff one of copying/copyright/notice/license/licence is a case-insensitive
prefix of its name: the `(?:.txt|.md|)` suffix group is vacuous because its
last alternative is empty and `re.match` leaves the end unanchored. -/
theorem c5_thm (name : String) :
    re_licence_filename_match name = true ↔
      ∃ w ∈ licence_filename_words, isCIPrefixL w.data name.data = true := by
  unfold re_licence_filename_match
  rw [List.any_eq_true]
  constructor
  · rintro ⟨w, hw, hmatch⟩
    exact ⟨w, hw, ((Bool.and_eq_true _ _).mp hmatch).1⟩
  · rintro ⟨w, hw, hpre⟩
    exact ⟨w, hw, by simp [hpre]⟩

/-- C7.  License inference normalizes the notice's whitespace for comparison
only (the inference function is pure: the stored notice is untouched) and
then tests the patterns in the fixed priority order of the table
`inferencePatterns` — LLVM-exception phrase, dual MIT/NCSA phrase,
"MIT license", SunPro grant phrase — returning `none` when none occurs. -/
theorem c7_thm (notice : String) :
    infer_license_identifier notice
      = lookupFirstPattern (collapseWsL notice.data) inferencePatterns := by
  rfl

/-! ### C1 -/

/-- Helper: an emitted dependency record is the one built at lines 259-263:
its license is the representative's resolved identifier and its notice is the
final notice. -/
theorem emitGroup_emitted {readFS : PPath → String} {key : GKey}
    {item : LicenseInfo} {rest : List LicenseInfo} {d : Dependency}
    (h : emitGroup readFS key (item :: rest) = some (some d)) :
    resolved_license_id readFS item ≠ some SPDX_IDENTIFIER_LLVM_EXCEPTION ∧
      d.license = resolved_license_id readFS item ∧
      d.notice = final_notice readFS item (item :: rest) := by
  rw [show emitGroup readFS key (item :: rest)
      = (match group_name key (item :: rest) item with
         | none => none
         | some name =>
           if resolved_license_id readFS item
               = some SPDX_IDENTIFIER_LLVM_EXCEPTION then some none
           else some (some { name := name,
                             license := resolved_license_id readFS item,
                             notice := final_notice readFS item (item :: rest) }))
    from rfl] at h
  split at h
  · exact absurd h (by simp)
  · split at h
    · exact absurd h (by simp)
    · rename_i hl
      simp only [Option.some.injEq] at h
      exact ⟨hl, by rw [← h], by rw [← h]⟩

/-- Helper: no dependency emitted by the group loop carries the
LLVM-exception identifier. -/
theorem emitAll_no_llvm {readFS : PPath → String} :
    ∀ {gs : List (GKey × List LicenseInfo)} {deps : List Dependency},
      emitAll readFS gs = some deps →
      ∀ d ∈ deps, d.license ≠ some SPDX_IDENTIFIER_LLVM_EXCEPTION := by
  intro gs
  induction gs with
  | nil =>
    intro deps h d hd
    simp only [emitAll, Option.some.injEq] at h
    subst h
    simp at hd
  | cons g gsRest ih =>
    intro deps h d hd
    obtain ⟨k, items⟩ := g
    unfold emitAll at h
    cases he : emitGroup readFS k items with
    | none => rw [he] at h; simp at h
    | some o =>
      rw [he] at h
      cases o with
      | none => exact ih h d hd
      | some d0 =>
        cases hrest : emitAll readFS gsRest with
        | none => rw [hrest] at h; simp at h
        | some ds =>
          rw [hrest] at h
          simp only [Option.map_some', Option.some.injEq] at h
          subst h
          rcases List.mem_cons.mp hd with rfl | hd'
          · obtain ⟨item, tail, rfl⟩ :
                ∃ i t, items = i :: t := by
              cases items with
              | nil => simp [emitGroup] at he
              | cons i t => exact ⟨i, t, rfl⟩
            have := emitGroup_emitted he
            rw [this.2.1]
            exact this.1
          · exact ih hrest d hd'

/-- C1, amended.  The LLVM-exception filter acts on groups through their
representative (first) member: no emitted dependency's license equals the
LLVM-exception identifier — `group_dependencies` drops a group exactly when
the representative's resolved identifier is that id.  (As `c1_cex` shows,
this is weaker than the per-file claim: a non-representative member whose
own inferred identifier is the LLVM-exception id can ride along in an
emitted group.) -/
theorem c1_thm (readFS : PPath → String)
    (license_infos : List (Option LicenseInfo)) (deps : List Dependency)
    (h : group_dependencies readFS license_infos = some deps) :
    ∀ d ∈ deps, d.license ≠ some SPDX_IDENTIFIER_LLVM_EXCEPTION := by
  unfold group_dependencies at h
  exact emitAll_no_llvm h

/-- Witness for `c1_thm` at a concrete input. -/
theorem c1_thm_witness :
    (Dependency.mk "w.c" none "Copyright W\n\nhello").license
      ≠ some SPDX_IDENTIFIER_LLVM_EXCEPTION :=
  c1_thm (fun _ => "")
    [some ⟨⟨["/", "w.c"]⟩, none, some "Copyright W", some "hello", none⟩]
    [⟨"w.c", none, "Copyright W\n\nhello"⟩] (by rfl)
    ⟨"w.c", none, "Copyright W\n\nhello"⟩ (by simp)

/-- C1, counterexample to the claim as stated.  File B has no explicit SPDX
marker and its notice infers to the LLVM-exception identifier, so B's
"resolved license identifier (explicit SPDX marker or inferred from notice
text)" IS the LLVM-exception id; yet the group containing B is emitted,
because its representative A carries the explicit license `MIT` (found on
the same line as A's copyright marker) and resolution happens once per
group, through the representative. -/
theorem c1_cex :
    extract_license_from_source pA linesA = some (some infoA) ∧
    extract_license_from_source pB linesB = some (some infoB) ∧
    infoB.license = none ∧
    infer_license_identifier (infoB.notice.getD "")
      = some SPDX_IDENTIFIER_LLVM_EXCEPTION ∧
    groupKey infoB = groupKey infoA ∧
    group_dependencies readFS0 [some infoA, some infoB] = some [depAB] :=
  ⟨by rfl, by rfl, by rfl, by rfl, by rfl, by rfl⟩

/-! ### C3

Facts about the order `pyStrLt` (Python's `<` on strings) and the
`sorted(set(...))` model `pySortedSet`. -/

theorem listCharLt_irrefl : ∀ (l : List Char), listCharLt l l = false := by
  intro l
  induction l with
  | nil => rfl
  | cons x xs ih => simp [listCharLt, ih]

theorem listCharLt_trans : ∀ {a b c : List Char},
    listCharLt a b = true → listCharLt b c = true → listCharLt a c = true := by
  intro a
  induction a with
  | nil =>
    intro b c hab hbc
    cases b with
    | nil => simp [listCharLt] at hab
    | cons y ys =>
      cases c with
      | nil => simp [listCharLt] at hbc
      | cons z zs => simp [listCharLt]
  | cons x xs ih =>
    intro b c hab hbc
    cases b with
    | nil => simp [listCharLt] at hab
    | cons y ys =>
      cases c with
      | nil => simp [listCharLt] at hbc
      | cons z zs =>
        simp only [listCharLt] at hab hbc ⊢
        by_cases hxy : x = y
        · subst hxy
          rw [if_pos rfl] at hab
          by_cases hxz : x = z
          · subst hxz
            rw [if_pos rfl] at hbc ⊢
            exact ih hab hbc
          · rw [if_neg hxz] at hbc ⊢
            exact hbc
        · rw [if_neg hxy] at hab
          by_cases hyz : y = z
          · subst hyz
            rw [if_neg hxy]
            exact hab
          · rw [if_neg hyz] at hbc
            have hxz : x < z :=
              lt_trans (of_decide_eq_true hab) (of_decide_eq_true hbc)
            by_cases hxz' : x = z
            · exact absurd hxz (hxz' ▸ lt_irrefl x)
            · rw [if_neg hxz']
              exact decide_eq_true hxz

theorem listCharLt_connex : ∀ {a b : List Char}, a ≠ b →
    listCharLt a b = true ∨ listCharLt b a = true := by
  intro a
  induction a with
  | nil =>
    intro b hne
    cases b with
    | nil => exact absurd rfl hne
    | cons y ys => left; simp [listCharLt]
  | cons x xs ih =>
    intro b hne
    cases b with
    | nil => right; simp [listCharLt]
    | cons y ys =>
      by_cases hxy : x = y
      · subst hxy
        have hne' : xs ≠ ys := fun h => hne (by rw [h])
        rcases ih hne' with h | h
        · left; simp [listCharLt, h]
        · right; simp [listCharLt, h]
      · rcases lt_or_gt_of_ne hxy with h | h
        · left; simp [listCharLt, if_neg hxy, h]
        · right; simp [listCharLt, if_neg (Ne.symm hxy), h]

theorem pyStrLt_trans {a b c : String} (h1 : pyStrLt a b = true)
    (h2 : pyStrLt b c = true) : pyStrLt a c = true :=
  listCharLt_trans h1 h2

theorem pyStrLt_connex {a b : String} (h : a ≠ b) :
    pyStrLt a b = true ∨ pyStrLt b a = true := by
  exact listCharLt_connex (fun hd => h (congrArg String.mk hd))

theorem mem_insertSortedD {a x : String} : ∀ {l : List String},
    a ∈ insertSortedD x l ↔ a = x ∨ a ∈ l := by
  intro l
  induction l with
  | nil => simp [insertSortedD]
  | cons y ys ih =>
    simp only [insertSortedD]
    split_ifs with h1 h2
    · simp [List.mem_cons]
    · subst h2
      simp [List.mem_cons]
    · simp only [List.mem_cons, ih]
      tauto

theorem pairwise_insertSortedD {x : String} : ∀ {l : List String},
    l.Pairwise (fun a b => pyStrLt a b = true) →
    (insertSortedD x l).Pairwise (fun a b => pyStrLt a b = true) := by
  intro l
  induction l with
  | nil => intro _; simp [insertSortedD]
  | cons y ys ih =>
    intro hp
    rw [List.pairwise_cons] at hp
    obtain ⟨hy, hys⟩ := hp
    simp only [insertSortedD]
    split_ifs with h1 h2
    · rw [List.pairwise_cons]
      refine ⟨?_, by rw [List.pairwise_cons]; exact ⟨hy, hys⟩⟩
      intro b hb
      rcases List.mem_cons.mp hb with rfl | hb'
      · exact h1
      · exact pyStrLt_trans h1 (hy b hb')
    · rw [List.pairwise_cons]
      exact ⟨hy, hys⟩
    · rw [List.pairwise_cons]
      constructor
      · intro b hb
        rcases mem_insertSortedD.mp hb with hbx | hb'
        · rw [hbx]
          rcases pyStrLt_connex (show x ≠ y from h2) with h | h
          · exact absurd h (by simpa using h1)
          · exact h
        · exact hy b hb'
      · exact ih hys

theorem mem_pySortedSet {a : String} : ∀ {l : List String},
    a ∈ pySortedSet l ↔ a ∈ l := by
  intro l
  induction l with
  | nil => simp [pySortedSet]
  | cons x xs ih =>
    show a ∈ insertSortedD x (pySortedSet xs) ↔ _
    rw [mem_insertSortedD, ih]
    simp [List.mem_cons]

theorem pairwise_pySortedSet : ∀ (l : List String),
    (pySortedSet l).Pairwise (fun a b => pyStrLt a b = true) := by
  intro l
  induction l with
  | nil => simp [pySortedSet]
  | cons x xs ih => exact pairwise_insertSortedD ih

/-- C3, counterexample.  With two distinct member copyrights the emitted
notice joins them with a carriage return `"\r"` (`linebreak = "\r"  # webapp
converts to <br>`, lines 256-257), not with the newline `"\n"` the claim
states. -/
theorem c3_cex :
    emitGroup readFS0 (GKey.text "shared notice body")
      [⟨pA, none, some "Copyright AAA", some "shared notice body", none⟩,
       ⟨pB, none, some "Copyright BBB", some "shared notice body", none⟩]
    = some (some ⟨"src", none,
        "Copyright AAA\rCopyright BBB\n\nshared notice body"⟩) ∧
    "Copyright AAA\rCopyright BBB\n\nshared notice body"
      ≠ "Copyright AAA\nCopyright BBB\n\nshared notice body" :=
  ⟨by rfl, by decide⟩

/-- A string is one of the members' kept copyrights exactly when some member
holds it as a non-null, non-empty copyright (line 254's `if item.copyright`
drops both `None` and `""`). -/
theorem mem_member_copyrights {s : String} {items : List LicenseInfo} :
    s ∈ member_copyrights items
      ↔ ∃ i ∈ items, i.copyright = some s ∧ s ≠ "" := by
  unfold member_copyrights
  rw [List.mem_filterMap]
  constructor
  · rintro ⟨i, hi, hm⟩
    refine ⟨i, hi, ?_⟩
    cases hc : i.copyright with
    | none => rw [hc] at hm; simp at hm
    | some c =>
      rw [hc] at hm
      replace hm : (if c = "" then (none : Option String) else some c)
          = some s := hm
      by_cases hce : c = ""
      · rw [if_pos hce] at hm
        simp at hm
      · rw [if_neg hce] at hm
        simp only [Option.some.injEq] at hm
        subst hm
        exact ⟨rfl, hce⟩
  · rintro ⟨i, hi, hc, hs⟩
    refine ⟨i, hi, ?_⟩
    rw [hc]
    show (if s = "" then (none : Option String) else some s) = some s
    rw [if_neg hs]

/-- C3, amended.  For every surviving output group with at least one truthy
member copyright string (Python's `if item.copyright` keeps a copyright only
when it is neither null nor empty), the emitted notice is the sorted set of
the distinct truthy member copyrights joined by a carriage-return character
`"\r"` (not a newline: the script deliberately uses `"\r"` so its webapp
can turn it into `<br>`), followed by a double newline, followed by the
group's resolved notice body. -/
theorem c3_thm (readFS : PPath → String) (key : GKey) (item : LicenseInfo)
    (rest : List LicenseInfo) (d : Dependency)
    (h : emitGroup readFS key (item :: rest) = some (some d))
    (hc : ∃ i ∈ item :: rest, ∃ c, i.copyright = some c ∧ c ≠ "") :
    ∃ cs : List String,
      List.Sorted (fun a b => pyStrLt a b = true) cs ∧ cs.Nodup ∧
      (∀ s, s ∈ cs ↔ ∃ i ∈ item :: rest, i.copyright = some s ∧ s ≠ "") ∧
      d.notice = String.intercalate "\r" cs ++ "\n\n"
        ++ resolved_notice readFS item := by
  refine ⟨pySortedSet (member_copyrights (item :: rest)),
    pairwise_pySortedSet _, ?_, ?_, ?_⟩
  · refine List.Pairwise.imp ?_ (pairwise_pySortedSet _)
    intro a b hlt heq
    subst heq
    rw [show pyStrLt a a = listCharLt a.data a.data from rfl,
      listCharLt_irrefl] at hlt
    exact Bool.false_ne_true hlt
  · intro s
    rw [mem_pySortedSet, mem_member_copyrights]
  · rw [(emitGroup_emitted h).2.2]
    unfold final_notice
    rw [if_neg]
    intro hnil
    obtain ⟨i, hi, c, hcopy, hne⟩ := hc
    have : c ∈ member_copyrights (item :: rest) :=
      mem_member_copyrights.mpr ⟨i, hi, hcopy, hne⟩
    exact List.not_mem_nil c (hnil ▸ mem_pySortedSet.mpr this)

/-- Witness for `c3_thm` at a concrete input. -/
theorem c3_thm_witness :
    ∃ cs : List String,
      List.Sorted (fun a b => pyStrLt a b = true) cs ∧ cs.Nodup ∧
      (∀ s, s ∈ cs ↔
        ∃ i ∈ [(⟨pA, none, some "Copyright DDD", some "body text", none⟩ :
                  LicenseInfo),
               ⟨pB, none, some "Copyright CCC", some "body text", none⟩],
          i.copyright = some s ∧ s ≠ "") ∧
      (Dependency.mk "src" none
          "Copyright CCC\rCopyright DDD\n\nbody text").notice
        = String.intercalate "\r" cs ++ "\n\n"
          ++ resolved_notice readFS0
              ⟨pA, none, some "Copyright DDD", some "body text", none⟩ :=
  c3_thm readFS0 (GKey.text "body text")
    ⟨pA, none, some "Copyright DDD", some "body text", none⟩
    [⟨pB, none, some "Copyright CCC", some "body text", none⟩]
    ⟨"src", none, "Copyright CCC\rCopyright DDD\n\nbody text"⟩
    (by rfl)
    ⟨⟨pA, none, some "Copyright DDD", some "body text", none⟩,
      List.mem_cons_self _ _, "Copyright DDD", rfl, by decide⟩

/-! ### C10

The Python `dict` preserves insertion order, so the groups dict enumerates
keys in order of first occurrence; the emission loop visits them in that
order. -/

theorem firstOcc_append_single : ∀ (l seen : List GKey) (k : GKey),
    firstOcc seen (l ++ [k])
      = firstOcc seen l ++ (if k ∈ seen ++ l then [] else [k]) := by
  intro l
  induction l with
  | nil =>
    intro seen k
    by_cases h : k ∈ seen <;> simp [firstOcc, h]
  | cons a as ih =>
    intro seen k
    simp only [List.cons_append, firstOcc, List.append_eq]
    by_cases ha : a ∈ seen
    · rw [if_pos ha, if_pos ha, ih seen k]
      congr 1
      refine if_congr ?_ rfl rfl
      simp only [List.mem_append, List.mem_cons]
      constructor
      · rintro (h | h)
        · exact Or.inl h
        · exact Or.inr (Or.inr h)
      · rintro (h | rfl | h)
        · exact Or.inl h
        · exact Or.inl ha
        · exact Or.inr h
    · rw [if_neg ha, if_neg ha, ih (a :: seen) k, List.cons_append]
      congr 2
      refine if_congr ?_ rfl rfl
      simp only [List.mem_append, List.mem_cons]
      tauto

theorem mem_firstOcc : ∀ (l seen : List GKey) (x : GKey),
    x ∈ firstOcc seen l ↔ x ∈ l ∧ x ∉ seen := by
  intro l
  induction l with
  | nil => intro seen x; simp [firstOcc]
  | cons a as ih =>
    intro seen x
    simp only [firstOcc]
    by_cases ha : a ∈ seen
    · rw [if_pos ha, ih seen x]
      simp only [List.mem_cons]
      constructor
      · rintro ⟨h1, h2⟩
        exact ⟨Or.inr h1, h2⟩
      · rintro ⟨rfl | h1, h2⟩
        · exact absurd ha h2
        · exact ⟨h1, h2⟩
    · rw [if_neg ha]
      simp only [List.mem_cons, ih (a :: seen) x]
      constructor
      · rintro (rfl | ⟨h1, h2⟩)
        · exact ⟨Or.inl rfl, ha⟩
        · exact ⟨Or.inr h1, fun hx => h2 (Or.inr hx)⟩
      · rintro ⟨h1, h2⟩
        by_cases hxa : x = a
        · exact Or.inl hxa
        · rcases h1 with rfl | h1
          · exact Or.inl rfl
          · refine Or.inr ⟨h1, fun hx => ?_⟩
            rcases hx with h | h
            · exact hxa h
            · exact h2 h

theorem nodup_firstOcc : ∀ (l seen : List GKey), (firstOcc seen l).Nodup := by
  intro l
  induction l with
  | nil => intro seen; simp [firstOcc]
  | cons a as ih =>
    intro seen
    by_cases ha : a ∈ seen
    · simpa [firstOcc, ha] using ih seen
    · simp only [firstOcc, if_neg ha]
      rw [List.nodup_cons]
      refine ⟨fun hmem => ?_, ih (a :: seen)⟩
      exact ((mem_firstOcc as (a :: seen) a).mp hmem).2 (List.mem_cons_self a seen)

theorem insertGroup_map_mem (f : GKey → List LicenseInfo) (i : LicenseInfo) :
    ∀ (K : List GKey) (k : GKey), K.Nodup → k ∈ K →
    insertGroup (K.map fun k' => (k', f k')) k i
      = K.map (fun k' => (k', if k' = k then f k' ++ [i] else f k')) := by
  intro K
  induction K with
  | nil => intro k _ hk; simp at hk
  | cons a as ih =>
    intro k hnd hk
    rw [List.nodup_cons] at hnd
    simp only [List.map_cons, insertGroup]
    by_cases hak : a = k
    · rw [if_pos hak, if_pos hak]
      subst hak
      congr 1
      refine (List.map_congr_left ?_).symm
      intro b hb
      rw [if_neg (fun hba : b = a => hnd.1 (hba ▸ hb))]
    · rw [if_neg hak, if_neg hak]
      rcases List.mem_cons.mp hk with h | h
      · exact absurd h.symm hak
      · rw [ih k hnd.2 h]

theorem insertGroup_map_not_mem (f : GKey → List LicenseInfo)
    (i : LicenseInfo) : ∀ (K : List GKey) (k : GKey), k ∉ K →
    insertGroup (K.map fun k' => (k', f k')) k i
      = (K.map fun k' => (k', f k')) ++ [(k, [i])] := by
  intro K
  induction K with
  | nil => intro k _; rfl
  | cons a as ih =>
    intro k hk
    simp only [List.map_cons, insertGroup, List.cons_append]
    rw [if_neg (fun h => hk (List.mem_cons.mpr (Or.inl h.symm))),
      ih k (fun h => hk (List.mem_cons_of_mem _ h))]

theorem itemsWithKey_append_single (infos : List LicenseInfo)
    (i : LicenseInfo) (k : GKey) :
    itemsWithKey (infos ++ [i]) k
      = itemsWithKey infos k ++ (if groupKey i = k then [i] else []) := by
  unfold itemsWithKey
  rw [List.filter_append]
  congr 1
  by_cases h : groupKey i = k <;> simp [h]

theorem itemsWithKey_eq_nil {infos : List LicenseInfo} {k : GKey}
    (h : k ∉ infos.map groupKey) : itemsWithKey infos k = [] := by
  unfold itemsWithKey
  rw [List.filter_eq_nil_iff]
  intro a ha
  simp only [decide_eq_true_eq]
  exact fun hk => h (hk ▸ List.mem_map_of_mem groupKey ha)

theorem foldl_insertGroup_spec : ∀ (infos : List LicenseInfo),
    infos.foldl (fun gs i => insertGroup gs (groupKey i) i) []
      = (firstOcc [] (infos.map groupKey)).map
          (fun k => (k, itemsWithKey infos k)) := by
  intro infos
  induction infos using List.reverseRecOn with
  | nil => rfl
  | append_singleton l i ih =>
    rw [List.foldl_append, List.foldl_cons, List.foldl_nil, ih,
      List.map_append, List.map_cons, List.map_nil,
      firstOcc_append_single, List.nil_append]
    by_cases hk : groupKey i ∈ l.map groupKey
    · rw [if_pos hk, List.append_nil,
        insertGroup_map_mem _ _ _ _ (nodup_firstOcc _ _)
          ((mem_firstOcc _ _ _).mpr ⟨hk, List.not_mem_nil _⟩)]
      refine List.map_congr_left ?_
      intro k' _
      by_cases he : k' = groupKey i
      · rw [if_pos he, itemsWithKey_append_single, if_pos he.symm]
      · rw [if_neg he, itemsWithKey_append_single,
          if_neg (fun h => he h.symm), List.append_nil]
    · rw [if_neg hk,
        insertGroup_map_not_mem _ _ _ _
          (fun hmem => hk ((mem_firstOcc _ _ _).mp hmem).1),
        List.map_append]
      congr 1
      · refine List.map_congr_left ?_
        intro k' hk'
        rw [itemsWithKey_append_single,
          if_neg (fun h : groupKey i = k' =>
            hk (by rw [h]; exact ((mem_firstOcc _ _ _).mp hk').1)),
          List.append_nil]
      · simp only [List.map_cons, List.map_nil]
        rw [itemsWithKey_append_single, itemsWithKey_eq_nil hk, if_pos rfl,
          List.nil_append]

theorem buildGroups_eq_foldl :
    ∀ (oinfos : List (Option LicenseInfo)) (gs : List (GKey × List LicenseInfo)),
      oinfos.foldl
        (fun gs oi =>
          match oi with
          | none => gs
          | some i => insertGroup gs (groupKey i) i) gs
        = (oinfos.filterMap id).foldl
            (fun gs i => insertGroup gs (groupKey i) i) gs := by
  intro oinfos
  induction oinfos with
  | nil => intro gs; rfl
  | cons oi rest ih =>
    intro gs
    cases oi with
    | none =>
      rw [List.foldl_cons,
        show ((none :: rest : List (Option LicenseInfo)).filterMap id)
          = rest.filterMap id from rfl]
      exact ih gs
    | some i =>
      rw [List.foldl_cons,
        show ((some i :: rest : List (Option LicenseInfo)).filterMap id)
          = i :: rest.filterMap id from rfl,
        List.foldl_cons]
      exact ih _

/-- The groups dict, as an association list, enumerates the keys in order of
first occurrence in the input, each with all its members in input order. -/
theorem buildGroups_spec (license_infos : List (Option LicenseInfo)) :
    buildGroups license_infos
      = (firstOcc [] ((license_infos.filterMap id).map groupKey)).map
          (fun k => (k, itemsWithKey (license_infos.filterMap id) k)) := by
  unfold buildGroups
  rw [buildGroups_eq_foldl, foldl_insertGroup_spec]

theorem emitAll_eq_filterMap {readFS : PPath → String} :
    ∀ {gs : List (GKey × List LicenseInfo)} {deps : List Dependency},
      emitAll readFS gs = some deps →
      deps = gs.filterMap (fun g => (emitGroup readFS g.1 g.2).join) := by
  intro gs
  induction gs with
  | nil =>
    intro deps h
    simp only [emitAll, Option.some.injEq] at h
    subst h
    rfl
  | cons g rest ih =>
    intro deps h
    obtain ⟨k, items⟩ := g
    unfold emitAll at h
    cases he : emitGroup readFS k items with
    | none => rw [he] at h; simp at h
    | some o =>
      rw [he] at h
      cases o with
      | none =>
        have hstep :
            List.filterMap (fun g => (emitGroup readFS g.1 g.2).join)
                ((k, items) :: rest)
              = List.filterMap (fun g => (emitGroup readFS g.1 g.2).join)
                  rest := by
          rw [List.filterMap_cons]
          simp [he]
        rw [hstep]
        exact ih h
      | some d0 =>
        cases hrest : emitAll readFS rest with
        | none => rw [hrest] at h; simp at h
        | some ds =>
          rw [hrest] at h
          simp only [Option.map_some', Option.some.injEq] at h
          subst h
          have hstep :
              List.filterMap (fun g => (emitGroup readFS g.1 g.2).join)
                  ((k, items) :: rest)
                = d0 :: List.filterMap
                    (fun g => (emitGroup readFS g.1 g.2).join) rest := by
            rw [List.filterMap_cons]
            simp [he]
          rw [hstep, ← ih hrest]

/-- C10.  The emitted dependencies array lists the surviving groups in order
of the first occurrence, in the input list, of each group's key (license
file path, else notice text, else source path); each group collects all the
inputs with that key, in input order.  Reordering the inputs therefore
reorders (or regroups) the output. -/
theorem c10_thm (readFS : PPath → String)
    (license_infos : List (Option LicenseInfo)) (deps : List Dependency)
    (h : group_dependencies readFS license_infos = some deps) :
    deps
      = (firstOcc [] ((license_infos.filterMap id).map groupKey)).filterMap
          (fun k =>
            (emitGroup readFS k
              (itemsWithKey (license_infos.filterMap id) k)).join) := by
  unfold group_dependencies at h
  rw [emitAll_eq_filterMap h, buildGroups_spec, List.filterMap_map]
  rfl

/-- Witness for `c10_thm` at a concrete input: two files sharing a notice
with a third, differently keyed file between them; the shared group keeps
the position of its first member. -/
theorem c10_thm_witness :
    [depAB, depC]
      = (firstOcc []
          (([some infoA, some infoC, some infoB].filterMap id).map groupKey)).filterMap
          (fun k =>
            (emitGroup readFS0 k
              (itemsWithKey
                ([some infoA, some infoC, some infoB].filterMap id) k)).join) :=
  c10_thm readFS0 [some infoA, some infoC, some infoB] [depAB, depC] (by rfl)

/-! ### C9 -/

/-- With at most one license-file candidate in a directory, any two listing
orders of that directory select the same candidates. -/
theorem filter_eq_of_perm_of_le_one {l₁ l₂ : List String}
    (hp : l₁.Perm l₂)
    (h1 : (l₁.filter re_licence_filename_match).length ≤ 1) :
    l₁.filter re_licence_filename_match
      = l₂.filter re_licence_filename_match := by
  have hperm := hp.filter re_licence_filename_match
  match hf : l₁.filter re_licence_filename_match with
  | [] =>
    rw [hf] at hperm
    exact (hperm.symm.eq_nil).symm
  | [a] =>
    rw [hf] at hperm
    exact (List.perm_singleton.mp hperm.symm).symm
  | a :: b :: t =>
    rw [hf] at h1
    simp at h1

theorem find_license_file_fuel_congr {l₁ l₂ : PPath → List String}
    (h : ∀ d, (l₁ d).filter re_licence_filename_match
        = (l₂ d).filter re_licence_filename_match) :
    ∀ (fuel : Nat) (dir : PPath),
      find_license_file_fuel l₁ fuel dir
        = find_license_file_fuel l₂ fuel dir := by
  intro fuel
  induction fuel with
  | zero => intro _; rfl
  | succ n ih =>
    intro dir
    simp only [find_license_file_fuel]
    rw [h dir]
    cases ((l₂ dir).filter re_licence_filename_match).head? with
    | some nm => rfl
    | none => exact ih dir.parent

theorem find_license_info_congr {fs₁ fs₂ : FileSystem}
    (hisFile : fs₁.isFile = fs₂.isFile) (hlines : fs₁.lines = fs₂.lines)
    (hfilter : ∀ d, (fs₁.listing d).filter re_licence_filename_match
        = (fs₂.listing d).filter re_licence_filename_match)
    (fuel : Nat) : ∀ (sp : PPath),
      find_license_info fs₁ fuel sp = find_license_info fs₂ fuel sp := by
  intro sp
  unfold find_license_info
  rw [hisFile, hlines, find_license_file_fuel_congr hfilter fuel sp.parent]

theorem mapM_option_congr {α β : Type} {f g : α → Option β}
    (h : ∀ a, f a = g a) : ∀ (l : List α), l.mapM f = l.mapM g := by
  intro l
  induction l with
  | nil => rfl
  | cons a as ih => rw [List.mapM_cons, List.mapM_cons, h a, ih]

/-- C9.  The full pipeline is deterministic: two runs over the same file
contents produce identical output bytes, even if the two runs see the
directory listings in different orders, provided every directory holds at
most one license-file candidate (the one documented source of
non-determinism).  `fs₁` and `fs₂` agree on which paths are files, on file
contents and on line decompositions; their listings are permutations of each
other. -/
theorem c9_thm (fs₁ fs₂ : FileSystem) (emscripten_dir : PPath) (fuel : Nat)
    (source_paths : List PPath)
    (hisFile : fs₁.isFile = fs₂.isFile)
    (hlines : fs₁.lines = fs₂.lines)
    (hcontents : fs₁.contents = fs₂.contents)
    (hperm : ∀ d, (fs₁.listing d).Perm (fs₂.listing d))
    (hone : ∀ d,
      ((fs₁.listing d).filter re_licence_filename_match).length ≤ 1) :
    main fs₁ emscripten_dir fuel source_paths
      = main fs₂ emscripten_dir fuel source_paths := by
  have hfilter : ∀ d, (fs₁.listing d).filter re_licence_filename_match
      = (fs₂.listing d).filter re_licence_filename_match :=
    fun d => filter_eq_of_perm_of_le_one (hperm d) (hone d)
  unfold main
  rw [hisFile, hcontents,
    mapM_option_congr (find_license_info_congr hisFile hlines hfilter fuel)
      source_paths]

/-- Witness for `c9_thm`: the same small filesystem listed in two different
orders. -/
theorem c9_thm_witness :
    main fsW1 ⟨["/", "emsdk"]⟩ 3 [⟨["/", "a.c"]⟩]
      = main fsW2 ⟨["/", "emsdk"]⟩ 3 [⟨["/", "a.c"]⟩] :=
  c9_thm fsW1 fsW2 ⟨["/", "emsdk"]⟩ 3 [⟨["/", "a.c"]⟩] rfl rfl rfl
    (fun d => by
      by_cases h : d = rootP
      · subst h
        show (if rootP = rootP then ["a.c", "LICENSE"] else []).Perm
          (if rootP = rootP then ["LICENSE", "a.c"] else [])
        rw [if_pos rfl, if_pos rfl]
        exact List.Perm.swap _ _ _
      · show (if d = rootP then ["a.c", "LICENSE"] else []).Perm
          (if d = rootP then ["LICENSE", "a.c"] else [])
        rw [if_neg h, if_neg h])
    (fun d => by
      by_cases h : d = rootP
      · subst h
        show ((if rootP = rootP then ["a.c", "LICENSE"] else []).filter
          re_licence_filename_match).length ≤ 1
        rw [if_pos rfl]
        decide
      · show ((if d = rootP then ["a.c", "LICENSE"] else []).filter
          re_licence_filename_match).length ≤ 1
        rw [if_neg h]
        decide)

end EmccDepInfo

